import Mathlib

/-!
Shallow embedding of `blend.py`, the blending core of the panorama stitcher.

Modelling conventions:
* Python / numpy floating point arithmetic is modelled exactly over `ℚ`;
  the claims under study speak about values "up to 8-bit rounding", which the
  rational model realises exactly.
* `int(...)` (Python truncation toward zero) is `truncQ`; the numpy cast
  `astype(np.uint8)` is `toUint8` (truncate toward zero, wrap mod 256).
* Images are grids of 8-bit samples `pix y x ch : ℕ`; all blending code of
  `blend.py` hardcodes three colour channels plus one weight channel
  (`acc[y, x, :3]`, `acc[y, x, 3]`), which the model mirrors.
* Raised Python exceptions are modelled with `Except PyError`; `PyError`
  records the Python exception class name and message.
* `cv2.perspectiveTransform` dehomogenises by the third coordinate and
  outputs 0 when that coordinate vanishes, which matches the `ℚ` convention
  `x / 0 = 0` used by `dehom`.
-/

/-- Python `int(q)`: truncation of a rational toward zero. -/
def truncQ (q : ℚ) : ℤ := q.num.tdiv q.den

/-- numpy `astype(np.uint8)` applied to a float value: truncate toward zero,
then wrap modulo 256. -/
def toUint8 (q : ℚ) : ℕ := ((truncQ q) % 256).toNat

/-- Python `sys.maxsize` on a 64-bit platform. -/
def maxsize : ℤ := 2 ^ 63 - 1

/-- a raised Python exception: class name and message. -/
structure PyError where
  cls : String
  msg : String
deriving DecidableEq

/-- a 3x3 matrix of (exact) floats, row major, as used for the placement
transforms of `blend.py`. -/
structure Mat3 where
  m00 : ℚ
  m01 : ℚ
  m02 : ℚ
  m10 : ℚ
  m11 : ℚ
  m12 : ℚ
  m20 : ℚ
  m21 : ℚ
  m22 : ℚ
deriving DecidableEq

/-- matrix product (`np.dot` / `translation.dot(M)`). -/
def Mat3.mul (A B : Mat3) : Mat3 :=
  ⟨A.m00 * B.m00 + A.m01 * B.m10 + A.m02 * B.m20,
   A.m00 * B.m01 + A.m01 * B.m11 + A.m02 * B.m21,
   A.m00 * B.m02 + A.m01 * B.m12 + A.m02 * B.m22,
   A.m10 * B.m00 + A.m11 * B.m10 + A.m12 * B.m20,
   A.m10 * B.m01 + A.m11 * B.m11 + A.m12 * B.m21,
   A.m10 * B.m02 + A.m11 * B.m12 + A.m12 * B.m22,
   A.m20 * B.m00 + A.m21 * B.m10 + A.m22 * B.m20,
   A.m20 * B.m01 + A.m21 * B.m11 + A.m22 * B.m21,
   A.m20 * B.m02 + A.m21 * B.m12 + A.m22 * B.m22⟩

/-- matrix-vector product (`np.dot(M, [x, y, 1])` takes homogeneous triples). -/
def Mat3.mulVec (A : Mat3) (v : ℚ × ℚ × ℚ) : ℚ × ℚ × ℚ :=
  (A.m00 * v.1 + A.m01 * v.2.1 + A.m02 * v.2.2,
   A.m10 * v.1 + A.m11 * v.2.1 + A.m12 * v.2.2,
   A.m20 * v.1 + A.m21 * v.2.1 + A.m22 * v.2.2)

/-- determinant of a 3x3 matrix. -/
def Mat3.det (A : Mat3) : ℚ :=
  A.m00 * (A.m11 * A.m22 - A.m12 * A.m21)
  - A.m01 * (A.m10 * A.m22 - A.m12 * A.m20)
  + A.m02 * (A.m10 * A.m21 - A.m11 * A.m20)

/-- matrix inverse by adjugate over determinant, the value `np.linalg.inv`
computes; `np.linalg.inv` raises on a singular input, so the (junk) value this
definition gives when `det = 0` is never used by the embedded code. -/
def Mat3.inv (A : Mat3) : Mat3 :=
  let d := A.det
  ⟨(A.m11 * A.m22 - A.m12 * A.m21) / d,
   -(A.m01 * A.m22 - A.m02 * A.m21) / d,
   (A.m01 * A.m12 - A.m02 * A.m11) / d,
   -(A.m10 * A.m22 - A.m12 * A.m20) / d,
   (A.m00 * A.m22 - A.m02 * A.m20) / d,
   -(A.m00 * A.m12 - A.m02 * A.m10) / d,
   (A.m10 * A.m21 - A.m11 * A.m20) / d,
   -(A.m00 * A.m21 - A.m01 * A.m20) / d,
   (A.m00 * A.m11 - A.m01 * A.m10) / d⟩

/-- the identity matrix `np.identity(3)`. -/
def id3 : Mat3 := ⟨1, 0, 0, 0, 1, 0, 0, 0, 1⟩

/-- dehomogenisation: divide a homogeneous triple by its third coordinate
(`p[:2] / p[2]`, and the convention of `cv2.perspectiveTransform`, which
outputs 0 when the third coordinate is 0, matching `ℚ` division by zero). -/
def dehom (v : ℚ × ℚ × ℚ) : ℚ × ℚ :=
  (v.1 / v.2.2, v.2.1 / v.2.2)

/-- a source image: `H x W` grid with `C` channels of 8-bit samples
(`pix y x ch`, row index first, as in numpy `img[y, x]`). -/
structure Image where
  H : ℕ
  W : ℕ
  C : ℕ
  pix : ℕ → ℕ → ℕ → ℕ

/-- the `ImageInfo` record of `blend.py`: a name, an image and its placement
transform. -/
structure ImageInfo where
  name : String
  img : Image
  position : Mat3

/-- an integer bounding box as returned by `imageBoundingBox`. -/
structure BBox where
  minX : ℤ
  minY : ℤ
  maxX : ℤ
  maxY : ℤ
deriving DecidableEq

/-- `imageBoundingBox(img, M)` from `blend.py`: transform the four corners
`(0,0), (0,H-1), (W-1,H-1), (W-1,0)` with `cv2.perspectiveTransform` and
return the truncated (`int(...)`) minima and maxima of the results. -/
def imageBoundingBox (img : Image) (M : Mat3) : BBox :=
  let Hq : ℚ := (img.H : ℚ)
  let Wq : ℚ := (img.W : ℚ)
  let c0 := dehom (M.mulVec (0, 0, 1))
  let c1 := dehom (M.mulVec (0, Hq - 1, 1))
  let c2 := dehom (M.mulVec (Wq - 1, Hq - 1, 1))
  let c3 := dehom (M.mulVec (Wq - 1, 0, 1))
  let mnX := min (min c0.1 c1.1) (min c2.1 c3.1)
  let mnY := min (min c0.2 c1.2) (min c2.2 c3.2)
  let mxX := max (max c0.1 c1.1) (max c2.1 c3.1)
  let mxY := max (max c0.2 c1.2) (max c2.2 c3.2)
  ⟨truncQ mnX, truncQ mnY, truncQ mxX, truncQ mxY⟩

/-- the blend weight of `accumulateBlend` line 87:
`min(x, blendWidth, W - x) / blendWidth` for canvas column `x` of a canvas of
width `W`. -/
def blendWeight (W : ℕ) (blendWidth : ℚ) (x : ℕ) : ℚ :=
  min (x : ℚ) (min blendWidth ((W : ℚ) - (x : ℚ))) / blendWidth

/-- the skip test of `accumulateBlend` line 82: the inverse-mapped source
coordinates `(sx, sy)` give no contribution when
`sx < 0 or sx >= imgW - 1 or sy < 0 or sy >= imgH - 1`. -/
def skipTest (imgH imgW : ℕ) (sx sy : ℚ) : Prop :=
  sx < 0 ∨ (imgW : ℚ) - 1 ≤ sx ∨ sy < 0 ∨ (imgH : ℚ) - 1 ≤ sy

instance (imgH imgW : ℕ) (sx sy : ℚ) : Decidable (skipTest imgH imgW sx sy) := by
  unfold skipTest
  infer_instance

/-- `bilinear_interpolation(img, x, y)` from `blend.py`, for one channel `f`
of the float image: sample the four integer-lattice neighbours of `(x, y)`
with the standard bilinear weights (`int(...)` truncation gives the base
corner).  Python indexing with a negative index would wrap around; the only
call site guards the coordinates so that all four indices are nonnegative and
in range (claim C7), where `Int.toNat` is faithful. -/
def bilinear_interpolation (f : ℕ → ℕ → ℚ) (x y : ℚ) : ℚ :=
  let x_0 := truncQ x
  let y_0 := truncQ y
  let x_1 := x_0 + 1
  let y_1 := y_0 + 1
  let dx := x - (x_0 : ℚ)
  let dy := y - (y_0 : ℚ)
  f y_0.toNat x_0.toNat * (1 - dx) * (1 - dy)
    + f y_0.toNat x_1.toNat * dx * (1 - dy)
    + f y_1.toNat x_0.toNat * (1 - dx) * dy
    + f y_1.toNat x_1.toNat * dx * dy

/-- the accumulation buffer: `acc y x ch : ℚ`, channels 0-2 the weighted
colour sums, channel 3 the weight sum. -/
def AccBuf : Type := ℕ → ℕ → ℕ → ℚ

/-- the all-zero buffer `np.zeros(...)`. -/
def zeroAcc : AccBuf := fun _ _ _ => 0

/-- one iteration of the pixel loop of `accumulateBlend` (lines 79-90): the
amount added to `acc[y, x, ch]` for canvas pixel `(x, y)`.  The pixel is
skipped (contribution 0) by the line-82 guard; when the inverse-mapped
homogeneous coordinate has third component 0, numpy division yields infinite
source coordinates which that same guard rejects, so this is also a skip. -/
def contribution (img : Image) (Minv : Mat3) (accW : ℕ) (blendWidth : ℚ)
    (x y ch : ℕ) : ℚ :=
  let v := Minv.mulVec ((x : ℚ), (y : ℚ), 1)
  let sx := v.1 / v.2.2
  let sy := v.2.1 / v.2.2
  if v.2.2 = 0 then 0
  else if skipTest img.H img.W sx sy then 0
  else
    if ch < 3 then
      bilinear_interpolation (fun yy xx => (img.pix yy xx ch : ℚ) / 255) sx sy
        * blendWeight accW blendWidth x
    else if ch = 3 then blendWeight accW blendWidth x
    else 0

/-- add `g ch` to the cell `(y, x)` of the buffer (the in-place updates
`acc[y, x, :3] += ...; acc[y, x, 3] += ...`). -/
def addAt (a : AccBuf) (y x : ℕ) (g : ℕ → ℚ) : AccBuf :=
  fun y' x' ch => if y' = y ∧ x' = x then a y' x' ch + g ch else a y' x' ch

/-- the inner loop `for x in range(W)` of `accumulateBlend`, restricted to the
first `n` columns of row `y` (so `n = accW` is the full row). -/
def accumRow (img : Image) (Minv : Mat3) (accW : ℕ) (blendWidth : ℚ)
    (y : ℕ) : ℕ → AccBuf → AccBuf
  | 0, a => a
  | n + 1, a =>
    addAt (accumRow img Minv accW blendWidth y n a) y n
      (fun ch => contribution img Minv accW blendWidth n y ch)

/-- the outer loop `for y in range(H)` of `accumulateBlend`, restricted to the
first `m` rows. -/
def accumLoop (img : Image) (Minv : Mat3) (accW : ℕ) (blendWidth : ℚ) :
    ℕ → AccBuf → AccBuf
  | 0, a => a
  | m + 1, a =>
    accumRow img Minv accW blendWidth m accW
      (accumLoop img Minv accW blendWidth m a)

/-- `accumulateBlend(img, acc, M, blendWidth)` from `blend.py` (lines 59-92):
normalise the image to floats, invert `M` (`np.linalg.inv` raises
`LinAlgError` on a singular matrix) and add the weighted inverse-warped image
into the `accH x accW` buffer. -/
def accumulateBlend (img : Image) (acc : AccBuf) (accH accW : ℕ) (M : Mat3)
    (blendWidth : ℚ) : Except PyError AccBuf :=
  if M.det = 0 then .error ⟨"LinAlgError", "Singular matrix"⟩
  else .ok (accumLoop img M.inv accW blendWidth accH acc)

/-- `normalizeBlend(acc)` from `blend.py` (lines 95-110): divide the colour
channels by the weight channel clamped below by `1e-8`, set the weight channel
to 1.0, rescale to 8 bits.  The buffer has four channels; the value at any
higher channel index is immaterial. -/
def normalizeBlend (acc : AccBuf) (y x ch : ℕ) : ℕ :=
  let v : ℚ :=
    if ch < 3 then acc y x ch / max (acc y x 3) (1 / 100000000)
    else if ch = 3 then 1
    else acc y x ch
  toUint8 (v * 255)

/-- the running state of the fold in `getAccSize` (lines 134-156): the
running minima / maxima and the `channels` / `width` registers with their
`-1` sentinels. -/
structure AccState where
  minX : ℤ
  minY : ℤ
  maxX : ℤ
  maxY : ℤ
  channels : ℤ
  width : ℤ
deriving DecidableEq

/-- one iteration of the `for i in ipv` loop of  `getAccSize`. -/
def accSizeStep (s : AccState) (i : ImageInfo) : AccState :=
  let bb := imageBoundingBox i.img i.position
  ⟨min s.minX bb.minX, min s.minY bb.minY,
   max s.maxX bb.maxX, max s.maxY bb.maxY,
   (if s.channels = -1 then (i.img.C : ℤ) else s.channels),
   (if s.channels = -1 then (i.img.W : ℤ) else s.width)⟩

/-- the result record of `getAccSize`. -/
structure AccSize where
  accWidth : ℤ
  accHeight : ℤ
  channels : ℤ
  width : ℤ
  translation : Mat3
deriving DecidableEq

/-- `getAccSize(ipv)` from `blend.py` (lines 113-164): fold the per-image
bounding boxes starting from the sentinels `minX = minY = sys.maxsize`,
`maxX = maxY = 0`, `channels = width = -1`; the corner values are already
integers, so `math.ceil` / `math.floor` are the identity and
`accWidth = maxX - minX`, `accHeight = maxY - minY`; the translation shifts
by `(-minX, -minY)`. -/
def getAccSize (ipv : List ImageInfo) : AccSize :=
  let s := ipv.foldl accSizeStep ⟨maxsize, maxsize, 0, 0, -1, -1⟩
  ⟨s.maxX - s.minX, s.maxY - s.minY, s.channels, s.width,
   ⟨1, 0, -(s.minX : ℚ), 0, 1, -(s.minY : ℚ), 0, 0, 1⟩⟩

/-- `pasteImages(ipv, translation, blendWidth, accWidth, accHeight, channels)`
from `blend.py` (lines 167-178): allocate the zero buffer (`np.zeros` raises
`ValueError` on a negative dimension) and accumulate every image with the
combined transform `translation . position`. -/
def pasteImages (ipv : List ImageInfo) (translation : Mat3) (blendWidth : ℚ)
    (accWidth accHeight channels : ℤ) : Except PyError AccBuf :=
  if accHeight < 0 ∨ accWidth < 0 ∨ channels + 1 < 0 then
    .error ⟨"ValueError", "negative dimensions are not allowed"⟩
  else
    ipv.foldlM
      (fun a i =>
        accumulateBlend i.img a accHeight.toNat accWidth.toNat
          (translation.mul i.position) blendWidth)
      zeroAcc

/-- the state of the `for count, i in enumerate(ipv)` loop of
`getDriftParams`: the optionally-assigned local variables
`(x_init, y_init)` and `(x_final, y_final)`. -/
def driftLoop (translation : Mat3) (width : ℚ) (n : ℕ) :
    ℕ → List ImageInfo → Option (ℚ × ℚ) × Option (ℚ × ℚ) →
    Option (ℚ × ℚ) × Option (ℚ × ℚ)
  | _, [], st => st
  | count, i :: rest, st =>
    let st' :=
      if count ≠ 0 ∧ count ≠ n - 1 then st
      else
        let p := dehom ((translation.mul i.position).mulVec
          (1 / 2 * width, 0, 1))
        let st1 := if count = 0 then (some p, st.2) else st
        if count = n - 1 then (st1.1, some p) else st1
    driftLoop translation width n (count + 1) rest st'

/-- `getDriftParams(ipv, translation, width)` from `blend.py` (lines
181-213): only the first and the last image are used; the point
`p = [0.5 * width, 0, 1]` is mapped through `translation . position` and
dehomogenised.  Returning with an unassigned `x_init` (empty `ipv`) raises
`UnboundLocalError`. -/
def getDriftParams (ipv : List ImageInfo) (translation : Mat3) (width : ℚ) :
    Except PyError (ℚ × ℚ × ℚ × ℚ) :=
  match driftLoop translation width ipv.length 0 ipv (none, none) with
  | (some (xi, yi), some (xf, yf)) => .ok (xi, yi, xf, yf)
  | _ => .error ⟨"UnboundLocalError", "local variable referenced before assignment"⟩

/-- `cv2.warpPerspective(compImage, A, (outW, outH), flags=INTER_LINEAR)` for
the identity transform `A` (the only transform the non-raising path of
`blendImages` ever passes): copy the source pixels into the `outH x outW`
target, zero-filling (`BORDER_CONSTANT`) beyond the source extent. -/
def warpIdentity (srcH srcW srcC : ℕ) (pixf : ℕ → ℕ → ℕ → ℕ)
    (outW outH : ℕ) : Image :=
  ⟨outH, outW, srcC,
   fun y x ch => if y < srcH ∧ x < srcW ∧ y < outH ∧ x < outW then pixf y x ch else 0⟩

/-- `blendImages(ipv, blendWidth, is360)` from `blend.py` (lines 215-256):
compute the canvas geometry, composite all images, normalise, compute the
drift parameters, and either raise the TODO-12 `Exception` (360 mode, line
245) or warp the composite with the identity affine transform `A` into the
`(outputWidth, accHeight)` window.  The optional `A_out` output argument is
diagnostic only and not modelled. -/
def blendImages (ipv : List ImageInfo) (blendWidth : ℚ) (is360 : Bool) :
    Except PyError Image :=
  let sz := getAccSize ipv
  match pasteImages ipv sz.translation blendWidth sz.accWidth sz.accHeight
      sz.channels with
  | .error e => .error e
  | .ok acc =>
    let outputWidth := if is360 then sz.accWidth - sz.width else sz.accWidth
    match getDriftParams ipv sz.translation (sz.width : ℚ) with
    | .error e => .error e
    | .ok _ =>
      if is360 then .error ⟨"Exception", "TODO 12 in blend.py not implemented"⟩
      else
        .ok (warpIdentity sz.accHeight.toNat sz.accWidth.toNat
          (sz.channels + 1).toNat (normalizeBlend acc)
          outputWidth.toNat sz.accHeight.toNat)

/-- Modelled from the spec (section 3, DriftParameters): the canvas-frame
coordinates of the midpoint of an image's LEFT edge, i.e. the local point
`(0, height / 2)` mapped through `translation . placement` and
dehomogenised.  This is the point the claim says `getDriftParams` returns
for the first image; the code instead uses the midpoint of the TOP edge. -/
def specLeftEdgeMidpointCanvas (translation M : Mat3) (height : ℚ) : ℚ × ℚ :=
  dehom ((translation.mul M).mulVec (0, height / 2, 1))

/-- a concrete 2x2, 3-channel test image with every 8-bit sample equal to 7. -/
def cImg : Image := ⟨2, 2, 3, fun _ _ _ => 7⟩

/-- the test image placed with the identity transform. -/
def cInfo : ImageInfo := ⟨"img", cImg, id3⟩

/-- a concrete 100x100, 3-channel black test image. -/
def imgA : Image := ⟨100, 100, 3, fun _ _ _ => 0⟩

/-- image A of the two-image example scenario, placed with the identity. -/
def infoA : ImageInfo := ⟨"A", imgA, id3⟩

/-- the pure translation placing image B 50 pixels to the right of image A. -/
def transB : Mat3 := ⟨1, 0, 50, 0, 1, 0, 0, 0, 1⟩

/-- image B of the two-image example scenario. -/
def infoB : ImageInfo := ⟨"B", imgA, transB⟩

/-- a 2x2 image translated so that every transformed corner is negative. -/
def negInfo : ImageInfo := ⟨"neg", ⟨2, 2, 3, fun _ _ _ => 0⟩, ⟨1, 0, -10, 0, 1, -10, 0, 0, 1⟩⟩

/-- a 2x2 image translated by the fractional offset 0.7. -/
def fracInfo : ImageInfo := ⟨"frac", ⟨2, 2, 3, fun _ _ _ => 0⟩, ⟨1, 0, 7 / 10, 0, 1, 0, 0, 0, 1⟩⟩

/-- a concrete 3x3, 3-channel test image with every 8-bit sample equal to 9. -/
def wImg : Image := ⟨3, 3, 3, fun _ _ _ => 9⟩

/-- the 3x3 test image placed with the identity transform. -/
def wInfo : ImageInfo := ⟨"w", wImg, id3⟩

/-- the buffer produced by accumulating the 2x2 test image into a 1x1 canvas
with blend width 20 (the value of the corresponding `accumulateBlend` call). -/
def cAccRes : AccBuf := accumLoop cImg id3.inv 1 20 1 zeroAcc


theorem truncQ_intCast (n : ℤ) : truncQ (n : ℚ) = n := by
  simp [truncQ, Rat.num_intCast, Rat.den_intCast, Int.tdiv_one]

theorem truncQ_natCast (n : ℕ) : truncQ (n : ℚ) = n := by
  simpa using truncQ_intCast (n : ℤ)

theorem truncQ_eq_floor {q : ℚ} (h : 0 ≤ q) : truncQ q = ⌊q⌋ := by
  rw [truncQ, Rat.floor_def]
  exact Int.tdiv_eq_ediv (Rat.num_nonneg.mpr h) (Int.ofNat_nonneg q.den)

theorem truncQ_neg (q : ℚ) : truncQ (-q) = -truncQ q := by
  simp [truncQ, Rat.num_neg, Int.neg_tdiv]

theorem truncQ_eq_ceil {q : ℚ} (h : q ≤ 0) : truncQ q = ⌈q⌉ := by
  have h' : 0 ≤ -q := by linarith
  have h1 : -truncQ q = ⌊-q⌋ := by rw [← truncQ_neg]; exact truncQ_eq_floor h'
  have h2 : ⌊-q⌋ = -⌈q⌉ := Int.floor_neg
  omega

theorem truncQ_nonneg {q : ℚ} (h : 0 ≤ q) : 0 ≤ truncQ q :=
  Int.tdiv_nonneg (Rat.num_nonneg.mpr h) (Int.ofNat_nonneg q.den)

theorem truncQ_le {q : ℚ} (h : 0 ≤ q) : (truncQ q : ℚ) ≤ q := by
  rw [truncQ_eq_floor h]
  exact Int.floor_le q

theorem lt_truncQ_add_one {q : ℚ} (h : 0 ≤ q) : q < (truncQ q : ℚ) + 1 := by
  rw [truncQ_eq_floor h]
  exact_mod_cast Int.lt_floor_add_one q

theorem truncQ_mono {a b : ℚ} (h : a ≤ b) : truncQ a ≤ truncQ b := by
  rcases le_total 0 a with ha | ha
  · rw [truncQ_eq_floor ha, truncQ_eq_floor (le_trans ha h)]
    exact Int.floor_le_floor h
  · rcases le_total 0 b with hb | hb
    · rw [truncQ_eq_ceil ha, truncQ_eq_floor hb]
      have h1 : ⌈a⌉ ≤ 0 := by
        rw [Int.ceil_le]
        exact_mod_cast ha
      have h2 : 0 ≤ ⌊b⌋ := Int.floor_nonneg.mpr hb
      omega
    · rw [truncQ_eq_ceil ha, truncQ_eq_ceil hb]
      exact Int.ceil_le_ceil h

theorem mulVec_id3 (v : ℚ × ℚ × ℚ) : id3.mulVec v = v := by
  obtain ⟨x, y, z⟩ := v
  simp [Mat3.mulVec, id3]

theorem id3_mul (A : Mat3) : id3.mul A = A := by
  cases A
  simp [Mat3.mul, id3]

theorem mul_id3 (A : Mat3) : A.mul id3 = A := by
  cases A
  simp [Mat3.mul, id3]

theorem det_id3 : id3.det = 1 := by
  norm_num [Mat3.det, id3]

theorem inv_id3 : id3.inv = id3 := by
  norm_num [Mat3.inv, Mat3.det, id3]

theorem foldl_min_comm (l : List ℤ) : ∀ (a b : ℤ),
    l.foldl min (min a b) = min a (l.foldl min b) := by
  induction l with
  | nil => intro a b; simp
  | cons x t ih =>
    intro a b
    simp only [List.foldl_cons]
    rw [min_assoc, ih]

theorem foldl_max_comm (l : List ℤ) : ∀ (a b : ℤ),
    l.foldl max (max a b) = max a (l.foldl max b) := by
  induction l with
  | nil => intro a b; simp
  | cons x t ih =>
    intro a b
    simp only [List.foldl_cons]
    rw [max_assoc, ih]

theorem foldl_min_le_init (l : List ℤ) : ∀ (a : ℤ), l.foldl min a ≤ a := by
  induction l with
  | nil => intro a; simp
  | cons x t ih =>
    intro a
    simp only [List.foldl_cons]
    exact le_trans (ih (min a x)) (min_le_left a x)

theorem le_foldl_max_init (l : List ℤ) : ∀ (a : ℤ), a ≤ l.foldl max a := by
  induction l with
  | nil => intro a; simp
  | cons x t ih =>
    intro a
    simp only [List.foldl_cons]
    exact le_trans (le_max_left a x) (ih (max a x))

theorem accFold_minX (l : List ImageInfo) : ∀ (s : AccState),
    (l.foldl accSizeStep s).minX =
      l.foldl (fun a i => min a (imageBoundingBox i.img i.position).minX) s.minX := by
  induction l with
  | nil => intro s; rfl
  | cons i t ih => intro s; simp only [List.foldl_cons, accSizeStep]; rw [ih]

theorem accFold_minY (l : List ImageInfo) : ∀ (s : AccState),
    (l.foldl accSizeStep s).minY =
      l.foldl (fun a i => min a (imageBoundingBox i.img i.position).minY) s.minY := by
  induction l with
  | nil => intro s; rfl
  | cons i t ih => intro s; simp only [List.foldl_cons, accSizeStep]; rw [ih]

theorem accFold_maxX (l : List ImageInfo) : ∀ (s : AccState),
    (l.foldl accSizeStep s).maxX =
      l.foldl (fun a i => max a (imageBoundingBox i.img i.position).maxX) s.maxX := by
  induction l with
  | nil => intro s; rfl
  | cons i t ih => intro s; simp only [List.foldl_cons, accSizeStep]; rw [ih]

theorem accFold_maxY (l : List ImageInfo) : ∀ (s : AccState),
    (l.foldl accSizeStep s).maxY =
      l.foldl (fun a i => max a (imageBoundingBox i.img i.position).maxY) s.maxY := by
  induction l with
  | nil => intro s; rfl
  | cons i t ih => intro s; simp only [List.foldl_cons, accSizeStep]; rw [ih]

theorem accFold_channels_width (l : List ImageInfo) : ∀ (s : AccState),
    s.channels ≠ -1 →
    (l.foldl accSizeStep s).channels = s.channels ∧
      (l.foldl accSizeStep s).width = s.width := by
  induction l with
  | nil => intro s _; exact ⟨rfl, rfl⟩
  | cons i t ih =>
    intro s hs
    simp only [List.foldl_cons, accSizeStep, if_neg hs]
    exact ih _ hs

theorem accumRow_apply (img : Image) (Minv : Mat3) (accW : ℕ) (b : ℚ)
    (y : ℕ) : ∀ (n : ℕ) (a : AccBuf) (y' x' ch : ℕ),
    accumRow img Minv accW b y n a y' x' ch =
      a y' x' ch +
        (if y' = y ∧ x' < n then contribution img Minv accW b x' y ch else 0) := by
  intro n
  induction n with
  | zero =>
    intro a y' x' ch
    simp [accumRow]
  | succ n ih =>
    intro a y' x' ch
    simp only [accumRow, addAt]
    rw [ih]
    by_cases hy : y' = y
    · subst hy
      by_cases hx : x' = n
      · subst hx
        have h1 : ¬ (x' < x') := by omega
        have h2 : x' < x' + 1 := by omega
        simp [h1, h2]
      · by_cases hlt : x' < n
        · have h2 : x' < n + 1 := by omega
          simp [hx, hlt, h2]
        · have h2 : ¬ (x' < n + 1) := by omega
          simp [hx, hlt, h2]
    · simp [hy]

theorem accumLoop_apply (img : Image) (Minv : Mat3) (accW : ℕ) (b : ℚ) :
    ∀ (m : ℕ) (a : AccBuf) (y' x' ch : ℕ),
    accumLoop img Minv accW b m a y' x' ch =
      a y' x' ch +
        (if y' < m ∧ x' < accW then contribution img Minv accW b x' y' ch else 0) := by
  intro m
  induction m with
  | zero =>
    intro a y' x' ch
    simp [accumLoop]
  | succ m ih =>
    intro a y' x' ch
    simp only [accumLoop]
    rw [accumRow_apply, ih]
    by_cases hy : y' = m
    · subst hy
      have h1 : ¬ (y' < y') := by omega
      have h2 : y' < y' + 1 := by omega
      by_cases hx : x' < accW
      · simp [h1, h2, hx]
      · simp [h1, h2, hx]
    · by_cases hlt : y' < m
      · have h2 : y' < m + 1 := by omega
        simp [hy, hlt, h2]
      · have h2 : ¬ (y' < m + 1) := by omega
        simp [hy, hlt, h2]

theorem accumulateBlend_ok (img : Image) (acc : AccBuf) (accH accW : ℕ)
    (M : Mat3) (b : ℚ) (hdet : M.det ≠ 0) :
    accumulateBlend img acc accH accW M b =
      .ok (accumLoop img M.inv accW b accH acc) := by
  simp [accumulateBlend, hdet]

theorem blendWeight_nonneg (W : ℕ) (b : ℚ) (x : ℕ) (hb : 0 < b)
    (hx : x ≤ W) : 0 ≤ blendWeight W b x := by
  unfold blendWeight
  apply div_nonneg _ (le_of_lt hb)
  have h1 : (0 : ℚ) ≤ (x : ℚ) := by positivity
  have h2 : (0 : ℚ) ≤ (W : ℚ) - (x : ℚ) := by
    have : (x : ℚ) ≤ (W : ℚ) := by exact_mod_cast hx
    linarith
  exact le_min h1 (le_min (le_of_lt hb) h2)

theorem bilinear_nonneg (f : ℕ → ℕ → ℚ) (x y : ℚ)
    (hf : ∀ i j, 0 ≤ f i j) (hx : 0 ≤ x) (hy : 0 ≤ y) :
    0 ≤ bilinear_interpolation f x y := by
  unfold bilinear_interpolation
  dsimp only
  have hdx0 : (0 : ℚ) ≤ x - (truncQ x : ℚ) := by
    have := truncQ_le hx
    linarith
  have hdx1 : x - (truncQ x : ℚ) ≤ 1 := by
    have := lt_truncQ_add_one hx
    linarith
  have hdy0 : (0 : ℚ) ≤ y - (truncQ y : ℚ) := by
    have := truncQ_le hy
    linarith
  have hdy1 : y - (truncQ y : ℚ) ≤ 1 := by
    have := lt_truncQ_add_one hy
    linarith
  have h00 := hf (truncQ y).toNat (truncQ x).toNat
  have h01 := hf (truncQ y).toNat (truncQ x + 1).toNat
  have h10 := hf (truncQ y + 1).toNat (truncQ x).toNat
  have h11 := hf (truncQ y + 1).toNat (truncQ x + 1).toNat
  have t1 : 0 ≤ f (truncQ y).toNat (truncQ x).toNat * (1 - (x - (truncQ x : ℚ))) *
      (1 - (y - (truncQ y : ℚ))) := by
    apply mul_nonneg (mul_nonneg h00 (by linarith)) (by linarith)
  have t2 : 0 ≤ f (truncQ y).toNat (truncQ x + 1).toNat * (x - (truncQ x : ℚ)) *
      (1 - (y - (truncQ y : ℚ))) := by
    apply mul_nonneg (mul_nonneg h01 (by linarith)) (by linarith)
  have t3 : 0 ≤ f (truncQ y + 1).toNat (truncQ x).toNat * (1 - (x - (truncQ x : ℚ))) *
      (y - (truncQ y : ℚ)) := by
    apply mul_nonneg (mul_nonneg h10 (by linarith)) (by linarith)
  have t4 : 0 ≤ f (truncQ y + 1).toNat (truncQ x + 1).toNat * (x - (truncQ x : ℚ)) *
      (y - (truncQ y : ℚ)) := by
    apply mul_nonneg (mul_nonneg h11 (by linarith)) (by linarith)
  linarith

theorem contribution_nonneg (img : Image) (Minv : Mat3) (accW : ℕ) (b : ℚ)
    (x y ch : ℕ) (hb : 0 < b) (hx : x < accW) :
    0 ≤ contribution img Minv accW b x y ch := by
  unfold contribution
  by_cases hz : (Minv.mulVec ((x : ℚ), (y : ℚ), 1)).2.2 = 0
  · simp [hz]
  · by_cases hskip : skipTest img.H img.W
        ((Minv.mulVec ((x : ℚ), (y : ℚ), 1)).1 / (Minv.mulVec ((x : ℚ), (y : ℚ), 1)).2.2)
        ((Minv.mulVec ((x : ℚ), (y : ℚ), 1)).2.1 / (Minv.mulVec ((x : ℚ), (y : ℚ), 1)).2.2)
    · simp [hz, hskip]
    · have hw : 0 ≤ blendWeight accW b x :=
        blendWeight_nonneg accW b x hb (le_of_lt hx)
      have hsx : 0 ≤ (Minv.mulVec ((x : ℚ), (y : ℚ), 1)).1 /
          (Minv.mulVec ((x : ℚ), (y : ℚ), 1)).2.2 := by
        by_contra hneg
        exact hskip (Or.inl (lt_of_not_le hneg))
      have hsy : 0 ≤ (Minv.mulVec ((x : ℚ), (y : ℚ), 1)).2.1 /
          (Minv.mulVec ((x : ℚ), (y : ℚ), 1)).2.2 := by
        by_contra hneg
        exact hskip (Or.inr (Or.inr (Or.inl (lt_of_not_le hneg))))
      simp only [hz, hskip, if_false]
      by_cases hch : ch < 3
      · simp only [hch, if_true]
        apply mul_nonneg _ hw
        apply bilinear_nonneg _ _ _ _ hsx hsy
        intro i j
        positivity
      · simp only [hch, if_false]
        by_cases hch3 : ch = 3
        · simp [hch3, hw]
        · simp [hch3]

theorem driftLoop_nil (T : Mat3) (w : ℚ) (n c : ℕ)
    (st : Option (ℚ × ℚ) × Option (ℚ × ℚ)) :
    driftLoop T w n c [] st = st := rfl

theorem driftLoop_cons (T : Mat3) (w : ℚ) (n c : ℕ) (i : ImageInfo)
    (rest : List ImageInfo) (st : Option (ℚ × ℚ) × Option (ℚ × ℚ)) :
    driftLoop T w n c (i :: rest) st =
      driftLoop T w n (c + 1) rest
        (if c ≠ 0 ∧ c ≠ n - 1 then st
         else
           let p := dehom ((T.mul i.position).mulVec (1 / 2 * w, 0, 1))
           let st1 := if c = 0 then (some p, st.2) else st
           if c = n - 1 then (st1.1, some p) else st1) := rfl

theorem driftLoop_tail (T : Mat3) (w : ℚ) (n : ℕ) :
    ∀ (l : List ImageInfo) (i : ImageInfo) (c : ℕ)
      (st : Option (ℚ × ℚ) × Option (ℚ × ℚ)),
    1 ≤ c → c + l.length + 1 = n →
    driftLoop T w n c (i :: l) st =
      (st.1,
       some (dehom ((T.mul (l.getLastD i).position).mulVec (1 / 2 * w, 0, 1)))) := by
  intro l
  induction l with
  | nil =>
    intro i c st hc hn
    simp only [List.length_nil] at hn
    have h1 : ¬ (c ≠ 0 ∧ c ≠ n - 1) := by omega
    have h2 : c = n - 1 := by omega
    have h3 : ¬ (c = 0) := by omega
    rw [driftLoop_cons, if_neg h1]
    simp only [if_neg h3, if_pos h2, driftLoop_nil, List.getLastD]
  | cons j t ih =>
    intro i c st hc hn
    simp only [List.length_cons] at hn
    have h1 : c ≠ 0 ∧ c ≠ n - 1 := by
      constructor
      · omega
      · omega
    rw [driftLoop_cons, if_pos h1, ih j (c + 1) st (by omega) (by omega),
      List.getLastD_cons]

theorem getDriftParams_first_last (i₀ : ImageInfo) (rest : List ImageInfo)
    (T : Mat3) (w : ℚ) :
    getDriftParams (i₀ :: rest) T w =
      .ok ((dehom ((T.mul i₀.position).mulVec (1 / 2 * w, 0, 1))).1,
           (dehom ((T.mul i₀.position).mulVec (1 / 2 * w, 0, 1))).2,
           (dehom ((T.mul (rest.getLastD i₀).position).mulVec (1 / 2 * w, 0, 1))).1,
           (dehom ((T.mul (rest.getLastD i₀).position).mulVec (1 / 2 * w, 0, 1))).2) := by
  unfold getDriftParams
  cases rest with
  | nil =>
    have h1 : ¬ ((0 : ℕ) ≠ 0 ∧ (0 : ℕ) ≠ [i₀].length - 1) := by simp
    have h2 : (0 : ℕ) = ([i₀] : List ImageInfo).length - 1 := by simp
    rw [driftLoop_cons, if_neg h1]
    simp only [eq_self_iff_true, if_true, if_pos h2, driftLoop_nil, List.getLastD]
  | cons r t =>
    have h1 : ¬ ((0 : ℕ) ≠ 0 ∧ (0 : ℕ) ≠ (i₀ :: r :: t).length - 1) := by simp
    have h3 : ¬ ((0 : ℕ) = (i₀ :: r :: t).length - 1) := by
      simp only [List.length_cons]
      omega
    rw [driftLoop_cons, if_neg h1]
    simp only [eq_self_iff_true, if_true, if_neg h3]
    rw [driftLoop_tail T w (i₀ :: r :: t).length t r (0 + 1) _ (by omega)
      (by simp only [List.length_cons]; omega)]
    simp only [List.getLastD_cons]

theorem bbox_minX_le_maxX (img : Image) (M : Mat3) :
    (imageBoundingBox img M).minX ≤ (imageBoundingBox img M).maxX := by
  unfold imageBoundingBox
  dsimp only
  apply truncQ_mono
  exact le_trans (min_le_left _ _) (le_trans (min_le_left _ _) (le_trans (le_max_left _ _) (le_max_left _ _)))

theorem bbox_minY_le_maxY (img : Image) (M : Mat3) :
    (imageBoundingBox img M).minY ≤ (imageBoundingBox img M).maxY := by
  unfold imageBoundingBox
  dsimp only
  apply truncQ_mono
  exact le_trans (min_le_left _ _) (le_trans (min_le_left _ _) (le_trans (le_max_left _ _) (le_max_left _ _)))

theorem foldl_minf_comm (f : ImageInfo → ℤ) (l : List ImageInfo) : ∀ (a b : ℤ),
    l.foldl (fun x i => min x (f i)) (min a b) =
      min a (l.foldl (fun x i => min x (f i)) b) := by
  induction l with
  | nil => intro a b; simp
  | cons j t ih =>
    intro a b
    simp only [List.foldl_cons]
    rw [min_assoc, ih]

theorem foldl_maxf_comm (f : ImageInfo → ℤ) (l : List ImageInfo) : ∀ (a b : ℤ),
    l.foldl (fun x i => max x (f i)) (max a b) =
      max a (l.foldl (fun x i => max x (f i)) b) := by
  induction l with
  | nil => intro a b; simp
  | cons j t ih =>
    intro a b
    simp only [List.foldl_cons]
    rw [max_assoc, ih]

theorem foldl_minf_le_init (f : ImageInfo → ℤ) (l : List ImageInfo) :
    ∀ (a : ℤ), l.foldl (fun x i => min x (f i)) a ≤ a := by
  induction l with
  | nil => intro a; simp
  | cons j t ih =>
    intro a
    simp only [List.foldl_cons]
    exact le_trans (ih (min a (f j))) (min_le_left a (f j))

theorem le_foldl_maxf_init (f : ImageInfo → ℤ) (l : List ImageInfo) :
    ∀ (a : ℤ), a ≤ l.foldl (fun x i => max x (f i)) a := by
  induction l with
  | nil => intro a; simp
  | cons j t ih =>
    intro a
    simp only [List.foldl_cons]
    exact le_trans (le_max_left a (f j)) (ih (max a (f j)))

theorem getAccSize_width_cons (i₀ : ImageInfo) (rest : List ImageInfo) :
    (getAccSize (i₀ :: rest)).accWidth =
      max 0 (rest.foldl (fun a i => max a (imageBoundingBox i.img i.position).maxX)
          (imageBoundingBox i₀.img i₀.position).maxX)
      - min maxsize (rest.foldl (fun a i => min a (imageBoundingBox i.img i.position).minX)
          (imageBoundingBox i₀.img i₀.position).minX) := by
  unfold getAccSize
  dsimp only
  rw [accFold_maxX, accFold_minX]
  simp only [List.foldl_cons]
  rw [foldl_maxf_comm, foldl_minf_comm]

theorem getAccSize_height_cons (i₀ : ImageInfo) (rest : List ImageInfo) :
    (getAccSize (i₀ :: rest)).accHeight =
      max 0 (rest.foldl (fun a i => max a (imageBoundingBox i.img i.position).maxY)
          (imageBoundingBox i₀.img i₀.position).maxY)
      - min maxsize (rest.foldl (fun a i => min a (imageBoundingBox i.img i.position).minY)
          (imageBoundingBox i₀.img i₀.position).minY) := by
  unfold getAccSize
  dsimp only
  rw [accFold_maxY, accFold_minY]
  simp only [List.foldl_cons]
  rw [foldl_maxf_comm, foldl_minf_comm]

theorem getAccSize_dims_nonneg (i₀ : ImageInfo) (rest : List ImageInfo) :
    0 ≤ (getAccSize (i₀ :: rest)).accWidth ∧
      0 ≤ (getAccSize (i₀ :: rest)).accHeight := by
  constructor
  · rw [getAccSize_width_cons]
    have h1 : min maxsize (rest.foldl (fun a i => min a (imageBoundingBox i.img i.position).minX)
        (imageBoundingBox i₀.img i₀.position).minX) ≤
        (imageBoundingBox i₀.img i₀.position).minX :=
      le_trans (min_le_right _ _) (foldl_minf_le_init _ _ _)
    have h2 : (imageBoundingBox i₀.img i₀.position).maxX ≤
        max 0 (rest.foldl (fun a i => max a (imageBoundingBox i.img i.position).maxX)
          (imageBoundingBox i₀.img i₀.position).maxX) :=
      le_trans (le_foldl_maxf_init _ _ _) (le_max_right _ _)
    have h3 := bbox_minX_le_maxX i₀.img i₀.position
    omega
  · rw [getAccSize_height_cons]
    have h1 : min maxsize (rest.foldl (fun a i => min a (imageBoundingBox i.img i.position).minY)
        (imageBoundingBox i₀.img i₀.position).minY) ≤
        (imageBoundingBox i₀.img i₀.position).minY :=
      le_trans (min_le_right _ _) (foldl_minf_le_init _ _ _)
    have h2 : (imageBoundingBox i₀.img i₀.position).maxY ≤
        max 0 (rest.foldl (fun a i => max a (imageBoundingBox i.img i.position).maxY)
          (imageBoundingBox i₀.img i₀.position).maxY) :=
      le_trans (le_foldl_maxf_init _ _ _) (le_max_right _ _)
    have h3 := bbox_minY_le_maxY i₀.img i₀.position
    omega

theorem getAccSize_channels_width (i₀ : ImageInfo) (rest : List ImageInfo) :
    (getAccSize (i₀ :: rest)).channels = (i₀.img.C : ℤ) ∧
      (getAccSize (i₀ :: rest)).width = (i₀.img.W : ℤ) := by
  unfold getAccSize
  dsimp only
  simp only [List.foldl_cons]
  have hstep : (accSizeStep ⟨maxsize, maxsize, 0, 0, -1, -1⟩ i₀).channels = (i₀.img.C : ℤ) ∧
      (accSizeStep ⟨maxsize, maxsize, 0, 0, -1, -1⟩ i₀).width = (i₀.img.W : ℤ) := by
    simp [accSizeStep]
  have hne : (accSizeStep ⟨maxsize, maxsize, 0, 0, -1, -1⟩ i₀).channels ≠ -1 := by
    rw [hstep.1]
    have : (0 : ℤ) ≤ (i₀.img.C : ℤ) := Int.ofNat_nonneg _
    omega
  have hcw := accFold_channels_width rest (accSizeStep ⟨maxsize, maxsize, 0, 0, -1, -1⟩ i₀) hne
  rw [hcw.1, hcw.2, hstep.1, hstep.2]
  exact ⟨rfl, rfl⟩

theorem truncQ_zero : truncQ 0 = 0 := by
  simpa using truncQ_intCast 0

theorem dehom_one (x y : ℚ) : dehom (x, y, 1) = (x, y) := by
  unfold dehom
  simp

theorem toUint8_natCast (p : ℕ) (hp : p < 256) : toUint8 (p : ℚ) = p := by
  unfold toUint8
  rw [truncQ_natCast]
  have h1 : ((p : ℤ)) % 256 = (p : ℤ) :=
    Int.emod_eq_of_lt (Int.ofNat_nonneg p) (by exact_mod_cast hp)
  rw [h1]
  simp

theorem truncQ_cast_sub_one (n : ℕ) : truncQ ((n : ℚ) - 1) = (n : ℤ) - 1 := by
  have h : ((n : ℚ) - 1) = (((n : ℤ) - 1 : ℤ) : ℚ) := by push_cast; ring
  rw [h, truncQ_intCast]

theorem bbox_id (img : Image) (hW : 1 ≤ img.W) (hH : 1 ≤ img.H) :
    imageBoundingBox img id3 = ⟨0, 0, (img.W : ℤ) - 1, (img.H : ℤ) - 1⟩ := by
  have hw : (0 : ℚ) ≤ (img.W : ℚ) - 1 := by
    have : (1 : ℚ) ≤ (img.W : ℚ) := by exact_mod_cast hW
    linarith
  have hh : (0 : ℚ) ≤ (img.H : ℚ) - 1 := by
    have : (1 : ℚ) ≤ (img.H : ℚ) := by exact_mod_cast hH
    linarith
  unfold imageBoundingBox
  dsimp only
  rw [mulVec_id3, mulVec_id3, mulVec_id3, mulVec_id3, dehom_one, dehom_one,
    dehom_one, dehom_one]
  simp only [min_self, max_self]
  rw [min_eq_left hw, min_eq_left hh, min_eq_right hh, min_self,
    max_eq_right hw, max_eq_right hh, max_eq_left hh, max_self]
  rw [truncQ_zero, truncQ_cast_sub_one, truncQ_cast_sub_one]

theorem getAccSize_single_id (nm : String) (img : Image) (hW : 1 ≤ img.W)
    (hH : 1 ≤ img.H) :
    getAccSize [⟨nm, img, id3⟩] =
      ⟨(img.W : ℤ) - 1, (img.H : ℤ) - 1, (img.C : ℤ), (img.W : ℤ), id3⟩ := by
  have hmax : (0 : ℤ) ≤ maxsize := by norm_num [maxsize]
  have hw : (0 : ℤ) ≤ (img.W : ℤ) - 1 := by
    have : (1 : ℤ) ≤ (img.W : ℤ) := by exact_mod_cast hW
    omega
  have hh : (0 : ℤ) ≤ (img.H : ℤ) - 1 := by
    have : (1 : ℤ) ≤ (img.H : ℤ) := by exact_mod_cast hH
    omega
  unfold getAccSize
  simp only [List.foldl_cons, List.foldl_nil]
  unfold accSizeStep
  dsimp only
  rw [bbox_id img hW hH]
  dsimp only
  rw [min_eq_right hmax, max_eq_right hw, max_eq_right hh]
  simp only [eq_self_iff_true, if_true, sub_zero, Int.cast_zero, neg_zero]
  simp [AccSize.mk.injEq, id3]

theorem blendWeight_zero_col (W : ℕ) (b : ℚ) (hb : 0 < b) :
    blendWeight W b 0 = 0 := by
  unfold blendWeight
  rw [Nat.cast_zero]
  have h1 : (0 : ℚ) ≤ min b ((W : ℚ) - 0) := by
    apply le_min (le_of_lt hb)
    simp
  rw [min_eq_left h1, zero_div]

theorem blendWeight_ge_eps (W : ℕ) (b : ℚ) (x : ℕ) (hb : 0 < b)
    (hble : b ≤ 100000000) (hx1 : 1 ≤ x) (hxW : x + 1 ≤ W) :
    1 / 100000000 ≤ blendWeight W b x := by
  unfold blendWeight
  have hx1q : (1 : ℚ) ≤ (x : ℚ) := by exact_mod_cast hx1
  have hWx : (1 : ℚ) ≤ (W : ℚ) - (x : ℚ) := by
    have : ((x : ℚ) + 1) ≤ (W : ℚ) := by exact_mod_cast hxW
    linarith
  have hmin : min 1 b ≤ min (x : ℚ) (min b ((W : ℚ) - (x : ℚ))) := by
    apply le_min
    · exact le_trans (min_le_left 1 b) hx1q
    · apply le_min (min_le_right 1 b)
      exact le_trans (min_le_left 1 b) hWx
  have hdiv : min 1 b / b ≤ min (x : ℚ) (min b ((W : ℚ) - (x : ℚ))) / b :=
    div_le_div_of_nonneg_right hmin (le_of_lt hb)
  refine le_trans ?_ hdiv
  rcases le_total b 1 with hb1 | hb1
  · rw [min_eq_right hb1, div_self (ne_of_gt hb)]
    norm_num
  · rw [min_eq_left hb1]
    rw [div_le_div_iff₀ (by norm_num) hb]
    linarith

theorem blendWeight_pos_ne_zero (W : ℕ) (b : ℚ) (x : ℕ) (hb : 0 < b)
    (hble : b ≤ 100000000) (hx1 : 1 ≤ x) (hxW : x + 1 ≤ W) :
    blendWeight W b x ≠ 0 := by
  have := blendWeight_ge_eps W b x hb hble hx1 hxW
  intro h
  rw [h] at this
  norm_num at this

theorem contribution_id (img : Image) (accW : ℕ) (b : ℚ) (x y ch : ℕ)
    (hx : x + 1 < img.W) (hy : y + 1 < img.H) :
    contribution img id3 accW b x y ch =
      if ch < 3 then ((img.pix y x ch : ℚ) / 255) * blendWeight accW b x
      else if ch = 3 then blendWeight accW b x
      else 0 := by
  unfold contribution
  rw [mulVec_id3]
  dsimp only
  have hz : (1 : ℚ) ≠ 0 := one_ne_zero
  rw [if_neg hz]
  have hsx : ((x : ℚ) / 1) = (x : ℚ) := div_one _
  have hsy : ((y : ℚ) / 1) = (y : ℚ) := div_one _
  rw [hsx, hsy]
  have hskip : ¬ skipTest img.H img.W (x : ℚ) (y : ℚ) := by
    unfold skipTest
    push_neg
    refine ⟨by positivity, ?_, by positivity, ?_⟩
    · have : ((x : ℚ) + 1) < (img.W : ℚ) := by exact_mod_cast hx
      linarith
    · have : ((y : ℚ) + 1) < (img.H : ℚ) := by exact_mod_cast hy
      linarith
  rw [if_neg hskip]
  have hbil : bilinear_interpolation (fun yy xx => (img.pix yy xx ch : ℚ) / 255)
      (x : ℚ) (y : ℚ) = (img.pix y x ch : ℚ) / 255 := by
    unfold bilinear_interpolation
    dsimp only
    rw [truncQ_natCast, truncQ_natCast]
    simp only [Int.toNat_natCast, sub_self]
    have hx1 : ((x : ℤ) + 1).toNat = x + 1 := by omega
    have hy1 : ((y : ℤ) + 1).toNat = y + 1 := by omega
    rw [hx1, hy1]
    push_cast
    ring
  rw [hbil]

theorem foldlM_accum_ok (T : Mat3) (b : ℚ) (ah aw : ℕ) :
    ∀ (l : List ImageInfo) (a : AccBuf),
    (∀ i ∈ l, (T.mul i.position).det ≠ 0) →
    ∃ r, l.foldlM
        (fun a i => accumulateBlend i.img a ah aw (T.mul i.position) b) a =
      .ok r := by
  intro l
  induction l with
  | nil =>
    intro a _
    exact ⟨a, rfl⟩
  | cons i t ih =>
    intro a hdet
    have hi : (T.mul i.position).det ≠ 0 := hdet i (List.mem_cons_self i t)
    obtain ⟨r, hr⟩ := ih (accumLoop i.img (T.mul i.position).inv aw b ah a)
      (fun j hj => hdet j (List.mem_cons_of_mem i hj))
    refine ⟨r, ?_⟩
    rw [List.foldlM_cons, accumulateBlend_ok _ _ _ _ _ _ hi]
    simpa using hr

theorem pasteImages_ok_exists (l : List ImageInfo) (T : Mat3) (b : ℚ)
    (aw ah ch : ℤ) (haw : 0 ≤ aw) (hah : 0 ≤ ah) (hch : 0 ≤ ch + 1)
    (hdet : ∀ i ∈ l, (T.mul i.position).det ≠ 0) :
    ∃ r, pasteImages l T b aw ah ch = .ok r := by
  unfold pasteImages
  rw [if_neg (by push_neg; omega)]
  exact foldlM_accum_ok T b ah.toNat aw.toNat l zeroAcc hdet

theorem pasteImages_single (i : ImageInfo) (T : Mat3) (b : ℚ)
    (aw ah ch : ℤ) (haw : 0 ≤ aw) (hah : 0 ≤ ah) (hch : 0 ≤ ch + 1)
    (hdet : (T.mul i.position).det ≠ 0) :
    pasteImages [i] T b aw ah ch =
      .ok (accumLoop i.img (T.mul i.position).inv aw.toNat b ah.toNat zeroAcc) := by
  unfold pasteImages
  rw [if_neg (by push_neg; omega)]
  rw [List.foldlM_cons, accumulateBlend_ok _ _ _ _ _ _ hdet]
  rfl

theorem toUint8_zero : toUint8 0 = 0 := by
  unfold toUint8
  rw [truncQ_zero]
  rfl

theorem normalizeBlend_weighted_cell (acc : AccBuf) (y x : ℕ) (p : ℕ) (w : ℚ)
    (ch : ℕ) (hch : ch < 3) (hc : acc y x ch = (p : ℚ) / 255 * w)
    (hw : acc y x 3 = w) (heps : 1 / 100000000 ≤ w) (hp : p < 256) :
    normalizeBlend acc y x ch = p := by
  unfold normalizeBlend
  dsimp only
  rw [if_pos hch, hc, hw, max_eq_left heps]
  have hw0 : w ≠ 0 := by
    intro h
    rw [h] at heps
    norm_num at heps
  rw [mul_div_cancel_right₀ _ hw0, div_mul_cancel₀ _ (by norm_num : (255 : ℚ) ≠ 0)]
  exact toUint8_natCast p hp

theorem normalizeBlend_alpha_255 (acc : AccBuf) (y x : ℕ) :
    normalizeBlend acc y x 3 = 255 := by
  unfold normalizeBlend
  dsimp only
  rw [if_neg (by omega), if_pos rfl, one_mul]
  have h : ((255 : ℕ) : ℚ) = (255 : ℚ) := by norm_num
  rw [← h]
  exact toUint8_natCast 255 (by omega)

theorem normalizeBlend_zero_cell (acc : AccBuf) (y x ch : ℕ) (hch : ch < 3)
    (hc : acc y x ch = 0) (hw : acc y x 3 = 0) :
    normalizeBlend acc y x ch = 0 := by
  unfold normalizeBlend
  dsimp only
  rw [if_pos hch, hc, hw]
  have h1 : max (0 : ℚ) (1 / 100000000) = 1 / 100000000 :=
    max_eq_right (by norm_num)
  rw [h1, zero_div, zero_mul]
  exact toUint8_zero

/-- C1 (amended): for a one-element image list whose single (3-channel) image
carries the identity placement transform and a blend width `0 < b ≤ 1e8`,
`blendImages` with `is360 = false` returns a mosaic of width `W - 1` and
height `H - 1` (NOT the input size `W x H`: the bounding box is built from the
corners at `W - 1`, `H - 1`); every output pixel in a column `1 ≤ x < W - 1`
equals the corresponding input pixel exactly, and column 0 is black (its blend
weight `min(0, b, W-1)/b` is 0). -/
theorem blendImages_single_identity (nm : String) (img : Image) (b : ℚ)
    (hW : 1 ≤ img.W) (hH : 1 ≤ img.H) (hC : img.C = 3)
    (hb : 0 < b) (hble : b ≤ 100000000)
    (hpix : ∀ y x c, img.pix y x c < 256) :
    ∃ out, blendImages [⟨nm, img, id3⟩] b false = .ok out ∧
      out.H = img.H - 1 ∧ out.W = img.W - 1 ∧
      (∀ y x c, y + 1 < img.H → 1 ≤ x → x + 1 < img.W → c < 3 →
        out.pix y x c = img.pix y x c) ∧
      (∀ y c, y + 1 < img.H → c < 3 → out.pix y 0 c = 0) := by
  have hsz := getAccSize_single_id nm img hW hH
  have haw : (0 : ℤ) ≤ (img.W : ℤ) - 1 := by
    have : (1 : ℤ) ≤ (img.W : ℤ) := by exact_mod_cast hW
    omega
  have hah : (0 : ℤ) ≤ (img.H : ℤ) - 1 := by
    have : (1 : ℤ) ≤ (img.H : ℤ) := by exact_mod_cast hH
    omega
  have hch : (0 : ℤ) ≤ (img.C : ℤ) + 1 := by positivity
  have hdet : (id3.mul (⟨nm, img, id3⟩ : ImageInfo).position).det ≠ 0 := by
    dsimp only
    rw [id3_mul, det_id3]
    norm_num
  have hawn : ((img.W : ℤ) - 1).toNat = img.W - 1 := by omega
  have hahn : ((img.H : ℤ) - 1).toNat = img.H - 1 := by omega
  have hpaste := pasteImages_single ⟨nm, img, id3⟩ id3 b ((img.W : ℤ) - 1)
    ((img.H : ℤ) - 1) (img.C : ℤ) haw hah hch hdet
  unfold blendImages
  rw [hsz]
  dsimp only
  rw [hpaste]
  dsimp only
  rw [getDriftParams_first_last]
  dsimp only [List.getLastD]
  simp only [Bool.false_eq_true, if_false]
  refine ⟨_, rfl, ?_, ?_, ?_, ?_⟩
  · dsimp [warpIdentity]
    exact hahn
  · dsimp [warpIdentity]
    exact hawn
  · intro y x c hy hx1 hxW hc
    dsimp only [warpIdentity]
    rw [hawn, hahn]
    have hcond : y < img.H - 1 ∧ x < img.W - 1 ∧ y < img.H - 1 ∧ x < img.W - 1 := by
      omega
    rw [if_pos hcond]
    rw [id3_mul, inv_id3]
    have haccc : accumLoop img id3 (img.W - 1) b
        (img.H - 1) zeroAcc y x c =
        ((img.pix y x c : ℚ) / 255) * blendWeight (img.W - 1) b x := by
      rw [accumLoop_apply]
      rw [if_pos (by omega : y < img.H - 1 ∧ x < img.W - 1)]
      rw [contribution_id img (img.W - 1) b x y c hxW hy, if_pos hc]
      simp [zeroAcc]
    have hacc3 : accumLoop img id3 (img.W - 1) b
        (img.H - 1) zeroAcc y x 3 =
        blendWeight (img.W - 1) b x := by
      rw [accumLoop_apply]
      rw [if_pos (by omega : y < img.H - 1 ∧ x < img.W - 1)]
      rw [contribution_id img (img.W - 1) b x y 3 hxW hy]
      simp [zeroAcc]
    exact normalizeBlend_weighted_cell _ y x (img.pix y x c)
      (blendWeight (img.W - 1) b x) c hc haccc hacc3
      (blendWeight_ge_eps (img.W - 1) b x hb hble hx1 (by omega))
      (hpix y x c)
  · intro y c hy hc
    dsimp only [warpIdentity]
    rw [hawn, hahn]
    by_cases hW2 : 2 ≤ img.W
    · have hcond : y < img.H - 1 ∧ 0 < img.W - 1 ∧ y < img.H - 1 ∧ 0 < img.W - 1 := by
        omega
      rw [if_pos hcond]
      rw [id3_mul, inv_id3]
      have hx0 : 0 + 1 < img.W := by omega
      have haccc : accumLoop img id3 (img.W - 1) b
          (img.H - 1) zeroAcc y 0 c = 0 := by
        rw [accumLoop_apply]
        rw [if_pos (by omega : y < img.H - 1 ∧ 0 < img.W - 1)]
        rw [contribution_id img (img.W - 1) b 0 y c hx0 hy, if_pos hc]
        rw [blendWeight_zero_col _ _ hb]
        simp [zeroAcc]
      have hacc3 : accumLoop img id3 (img.W - 1) b
          (img.H - 1) zeroAcc y 0 3 = 0 := by
        rw [accumLoop_apply]
        rw [if_pos (by omega : y < img.H - 1 ∧ 0 < img.W - 1)]
        rw [contribution_id img (img.W - 1) b 0 y 3 hx0 hy]
        rw [blendWeight_zero_col _ _ hb]
        simp [zeroAcc]
      exact normalizeBlend_zero_cell _ y 0 c hc haccc hacc3
    · have hcond : ¬ (y < img.H - 1 ∧ 0 < img.W - 1 ∧ y < img.H - 1 ∧ 0 < img.W - 1) := by
        omega
      rw [if_neg hcond]

theorem blendImages_is360_todo (i₀ : ImageInfo) (rest : List ImageInfo) (b : ℚ)
    (hdet : ∀ i ∈ i₀ :: rest,
      ((getAccSize (i₀ :: rest)).translation.mul i.position).det ≠ 0) :
    blendImages (i₀ :: rest) b true =
      .error ⟨"Exception", "TODO 12 in blend.py not implemented"⟩ := by
  obtain ⟨hw0, hh0⟩ := getAccSize_dims_nonneg i₀ rest
  have hch1 : 0 ≤ (getAccSize (i₀ :: rest)).channels + 1 := by
    rw [(getAccSize_channels_width i₀ rest).1]
    positivity
  obtain ⟨r, hr⟩ := pasteImages_ok_exists (i₀ :: rest)
    (getAccSize (i₀ :: rest)).translation b (getAccSize (i₀ :: rest)).accWidth
    (getAccSize (i₀ :: rest)).accHeight (getAccSize (i₀ :: rest)).channels
    hw0 hh0 hch1 hdet
  unfold blendImages
  dsimp only
  rw [hr]
  dsimp only
  rw [getDriftParams_first_last]
  rfl

theorem mulVec_translate (tx ty x y : ℚ) :
    Mat3.mulVec ⟨1, 0, tx, 0, 1, ty, 0, 0, 1⟩ (x, y, 1) = (x + tx, y + ty, 1) := by
  unfold Mat3.mulVec
  dsimp only
  norm_num

theorem bbox_translate (img : Image) (tx ty : ℚ) (hW : 1 ≤ img.W)
    (hH : 1 ≤ img.H) :
    imageBoundingBox img ⟨1, 0, tx, 0, 1, ty, 0, 0, 1⟩ =
      ⟨truncQ tx, truncQ ty, truncQ ((img.W : ℚ) - 1 + tx),
       truncQ ((img.H : ℚ) - 1 + ty)⟩ := by
  have hw : (0 : ℚ) ≤ (img.W : ℚ) - 1 := by
    have : (1 : ℚ) ≤ (img.W : ℚ) := by exact_mod_cast hW
    linarith
  have hh : (0 : ℚ) ≤ (img.H : ℚ) - 1 := by
    have : (1 : ℚ) ≤ (img.H : ℚ) := by exact_mod_cast hH
    linarith
  unfold imageBoundingBox
  dsimp only
  rw [mulVec_translate, mulVec_translate, mulVec_translate, mulVec_translate,
    dehom_one, dehom_one, dehom_one, dehom_one]
  dsimp only
  rw [zero_add, zero_add]
  have e1 : min (min tx tx) (min ((img.W : ℚ) - 1 + tx) ((img.W : ℚ) - 1 + tx)) = tx := by
    rw [min_self, min_self]
    exact min_eq_left (by linarith)
  have hty : ty ≤ (img.H : ℚ) - 1 + ty := by linarith
  have e2 : min (min ty ((img.H : ℚ) - 1 + ty)) (min ((img.H : ℚ) - 1 + ty) ty) = ty := by
    rw [min_eq_left hty, min_eq_right hty, min_self]
  have e3 : max (max tx tx) (max ((img.W : ℚ) - 1 + tx) ((img.W : ℚ) - 1 + tx)) =
      (img.W : ℚ) - 1 + tx := by
    rw [max_self, max_self]
    exact max_eq_right (by linarith)
  have e4 : max (max ty ((img.H : ℚ) - 1 + ty)) (max ((img.H : ℚ) - 1 + ty) ty) =
      (img.H : ℚ) - 1 + ty := by
    rw [max_eq_right hty, max_eq_left hty, max_self]
  rw [e1, e2, e3, e4]

theorem bbox_imgA_id : imageBoundingBox imgA id3 = ⟨0, 0, 99, 99⟩ := by
  rw [bbox_id imgA (by norm_num [imgA]) (by norm_num [imgA])]
  simp only [imgA]
  norm_num

theorem bbox_imgA_transB : imageBoundingBox imgA transB = ⟨50, 0, 149, 99⟩ := by
  have h := bbox_translate imgA 50 0 (by norm_num [imgA]) (by norm_num [imgA])
  simp only [transB]
  rw [h]
  simp only [imgA]
  rw [show (50 : ℚ) = ((50 : ℤ) : ℚ) by norm_num, truncQ_intCast, truncQ_zero,
    show (((100 : ℕ) : ℚ) - 1 + ((50 : ℤ) : ℚ)) = ((149 : ℤ) : ℚ) by norm_num,
    truncQ_intCast,
    show (((100 : ℕ) : ℚ) - 1 + 0) = ((99 : ℤ) : ℚ) by norm_num, truncQ_intCast]

theorem getAccSize_AB_dims : (getAccSize [infoA, infoB]).accWidth = 149 ∧
    (getAccSize [infoA, infoB]).accHeight = 99 := by
  constructor
  · rw [getAccSize_width_cons]
    simp only [List.foldl_cons, List.foldl_nil]
    dsimp only [infoA, infoB]
    rw [bbox_imgA_id, bbox_imgA_transB]
    norm_num [maxsize]
  · rw [getAccSize_height_cons]
    simp only [List.foldl_cons, List.foldl_nil]
    dsimp only [infoA, infoB]
    rw [bbox_imgA_id, bbox_imgA_transB]
    norm_num [maxsize]

theorem bbox_negInfo : imageBoundingBox negInfo.img negInfo.position =
    ⟨-10, -10, -9, -9⟩ := by
  have h1 : truncQ (-10 : ℚ) = -10 := by
    rw [show (-10 : ℚ) = ((-10 : ℤ) : ℚ) by norm_num, truncQ_intCast]
  have h2 : truncQ ((((2 : ℕ) : ℚ)) - 1 + (-10)) = -9 := by
    rw [show ((((2 : ℕ) : ℚ)) - 1 + (-10)) = ((-9 : ℤ) : ℚ) by push_cast; ring,
      truncQ_intCast]
  show imageBoundingBox ⟨2, 2, 3, fun _ _ _ => 0⟩ ⟨1, 0, -10, 0, 1, -10, 0, 0, 1⟩ =
    ⟨-10, -10, -9, -9⟩
  rw [bbox_translate ⟨2, 2, 3, fun _ _ _ => 0⟩ (-10) (-10) (by norm_num) (by norm_num)]
  dsimp only
  rw [h1, h2]

theorem getAccSize_negInfo_width : (getAccSize [negInfo]).accWidth = 10 := by
  rw [getAccSize_width_cons]
  simp only [List.foldl_nil]
  rw [bbox_negInfo]
  norm_num [maxsize]

theorem bbox_fracInfo : imageBoundingBox fracInfo.img fracInfo.position =
    ⟨0, 0, 1, 1⟩ := by
  have h1 : truncQ (7 / 10 : ℚ) = 0 := by
    rw [truncQ_eq_floor (by norm_num), Int.floor_eq_iff]
    constructor <;> norm_num
  have h2 : truncQ ((((2 : ℕ) : ℚ)) - 1 + 7 / 10) = 1 := by
    rw [truncQ_eq_floor (by push_cast; norm_num),
      show ((((2 : ℕ) : ℚ)) - 1 + 7 / 10) = 17 / 10 by push_cast; ring,
      Int.floor_eq_iff]
    constructor <;> norm_num
  have h3 : truncQ ((((2 : ℕ) : ℚ)) - 1 + 0) = 1 := by
    rw [show ((((2 : ℕ) : ℚ)) - 1 + 0) = ((1 : ℤ) : ℚ) by push_cast; ring,
      truncQ_intCast]
  show imageBoundingBox ⟨2, 2, 3, fun _ _ _ => 0⟩ ⟨1, 0, 7 / 10, 0, 1, 0, 0, 0, 1⟩ =
    ⟨0, 0, 1, 1⟩
  rw [bbox_translate ⟨2, 2, 3, fun _ _ _ => 0⟩ (7 / 10) 0 (by norm_num) (by norm_num)]
  dsimp only
  rw [h1, h2, h3, truncQ_zero]

theorem getAccSize_fracInfo_width : (getAccSize [fracInfo]).accWidth = 1 := by
  rw [getAccSize_width_cons]
  simp only [List.foldl_nil]
  rw [bbox_fracInfo]
  norm_num [maxsize]

theorem getAccSize_nil_eval : getAccSize [] =
    ⟨-9223372036854775807, -9223372036854775807, -1, -1,
     ⟨1, 0, -9223372036854775807, 0, 1, -9223372036854775807, 0, 0, 1⟩⟩ := by
  unfold getAccSize
  simp only [List.foldl_nil]
  simp only [AccSize.mk.injEq, Mat3.mk.injEq]
  norm_num [maxsize]

theorem blendImages_nil (b : ℚ) (m : Bool) :
    blendImages [] b m =
      .error ⟨"ValueError", "negative dimensions are not allowed"⟩ := by
  unfold blendImages
  rw [getAccSize_nil_eval]
  dsimp only
  unfold pasteImages
  rw [if_pos (by norm_num)]

theorem getAccSize_cInfo : getAccSize [cInfo] = ⟨1, 1, 3, 2, id3⟩ := by
  have h := getAccSize_single_id "img" cImg (by norm_num [cImg]) (by norm_num [cImg])
  show getAccSize [⟨"img", cImg, id3⟩] = ⟨1, 1, 3, 2, id3⟩
  rw [h]
  simp only [AccSize.mk.injEq, cImg]
  norm_num

theorem blendImages_cInfo_eval :
    (blendImages [cInfo] 20 false).toOption.map (fun o => (o.H, o.W, o.pix 0 0 0)) =
      some (1, 1, 0) := by
  have hdet : (id3.mul cInfo.position).det ≠ 0 := by
    show (id3.mul id3).det ≠ 0
    rw [id3_mul, det_id3]
    norm_num
  have hpaste := pasteImages_single cInfo id3 20 1 1 3 (by norm_num) (by norm_num)
    (by norm_num) hdet
  have hMinv : (id3.mul cInfo.position).inv = id3 := by
    show (id3.mul id3).inv = id3
    rw [id3_mul, inv_id3]
  have haccc : accumLoop cImg id3 1 20 1 zeroAcc 0 0 0 = 0 := by
    rw [accumLoop_apply, if_pos (by omega : (0 : ℕ) < 1 ∧ (0 : ℕ) < 1)]
    rw [contribution_id cImg 1 20 0 0 0 (by norm_num [cImg]) (by norm_num [cImg])]
    rw [if_pos (by omega : (0 : ℕ) < 3)]
    rw [blendWeight_zero_col 1 20 (by norm_num)]
    simp [zeroAcc]
  have hacc3 : accumLoop cImg id3 1 20 1 zeroAcc 0 0 3 = 0 := by
    rw [accumLoop_apply, if_pos (by omega : (0 : ℕ) < 1 ∧ (0 : ℕ) < 1)]
    rw [contribution_id cImg 1 20 0 0 3 (by norm_num [cImg]) (by norm_num [cImg])]
    rw [if_neg (by omega : ¬ ((3 : ℕ) < 3)), if_pos rfl]
    rw [blendWeight_zero_col 1 20 (by norm_num)]
    simp [zeroAcc]
  unfold blendImages
  rw [getAccSize_cInfo]
  dsimp only
  rw [hpaste]
  dsimp only
  rw [getDriftParams_first_last]
  dsimp only [List.getLastD]
  simp only [Bool.false_eq_true, if_false]
  simp only [Except.toOption, Option.map]
  dsimp only [warpIdentity]
  rw [hMinv]
  have hc : ((0 : ℕ) < (1 : ℤ).toNat ∧ (0 : ℕ) < (1 : ℤ).toNat ∧
      (0 : ℕ) < (1 : ℤ).toNat ∧ (0 : ℕ) < (1 : ℤ).toNat) := by
    norm_num
  rw [if_pos hc]
  have hnz : normalizeBlend (accumLoop cInfo.img id3 (1 : ℤ).toNat 20
      (1 : ℤ).toNat zeroAcc) 0 0 0 = 0 := by
    apply normalizeBlend_zero_cell _ _ _ _ (by omega)
    · show accumLoop cImg id3 (1 : ℤ).toNat 20 (1 : ℤ).toNat zeroAcc 0 0 0 = 0
      exact haccc
    · show accumLoop cImg id3 (1 : ℤ).toNat 20 (1 : ℤ).toNat zeroAcc 0 0 3 = 0
      exact hacc3
  rw [hnz]
  norm_num

theorem getDriftParams_AB_eval :
    getDriftParams [infoA, infoB] id3 100 = .ok (50, 0, 100, 0) := by
  rw [getDriftParams_first_last]
  dsimp only [List.getLastD, infoA, infoB]
  rw [id3_mul, id3_mul]
  rw [show ((1 : ℚ) / 2 * 100) = 50 by norm_num]
  rw [mulVec_id3, dehom_one]
  show Except.ok ((50 : ℚ), (0 : ℚ),
    (dehom (Mat3.mulVec ⟨1, 0, 50, 0, 1, 0, 0, 0, 1⟩ (50, 0, 1))).1,
    (dehom (Mat3.mulVec ⟨1, 0, 50, 0, 1, 0, 0, 0, 1⟩ (50, 0, 1))).2) =
    Except.ok (50, 0, 100, 0)
  rw [mulVec_translate, dehom_one]
  norm_num

theorem specLeftEdge_AB_eval :
    specLeftEdgeMidpointCanvas id3 id3 100 = (0, 50) := by
  unfold specLeftEdgeMidpointCanvas
  rw [id3_mul, mulVec_id3, dehom_one]
  norm_num

/-- C1 (counterexample): for the concrete 2x2 all-7 image placed with the
identity transform and blend width 20, `blendImages` returns a 1x1 mosaic (not
2x2 as the claim demands), and its single pixel is 0 (black), not 7: the claim
"same width and height as the input, and every output pixel equals the input
pixel" is false. -/
theorem claim_C1_counterexample :
    (blendImages [cInfo] 20 false).toOption.map (fun o => (o.H, o.W, o.pix 0 0 0)) =
      some (1, 1, 0) ∧
    cImg.H = 2 ∧ cImg.W = 2 ∧ cImg.pix 0 0 0 = 7 :=
  ⟨blendImages_cInfo_eval, rfl, rfl, rfl⟩

/-- C1 (witness): the amended claim instantiated at a concrete 3x3 all-9 image
with blend width 2. -/
theorem claim_C1_witness :
    (1 ≤ wImg.W) ∧ (0 < (2 : ℚ)) ∧
    (∃ out, blendImages [⟨"w", wImg, id3⟩] 2 false = .ok out ∧
      out.H = wImg.H - 1 ∧ out.W = wImg.W - 1 ∧
      (∀ y x c, y + 1 < wImg.H → 1 ≤ x → x + 1 < wImg.W → c < 3 →
        out.pix y x c = wImg.pix y x c) ∧
      (∀ y c, y + 1 < wImg.H → c < 3 → out.pix y 0 c = 0)) := by
  refine ⟨by norm_num [wImg], by norm_num, ?_⟩
  exact blendImages_single_identity "w" wImg 2 (by norm_num [wImg])
    (by norm_num [wImg]) rfl (by norm_num) (by norm_num)
    (fun y x c => by norm_num [wImg])

/-- C2 (counterexample): the blend weight `min(x, b, W - x)/b` is NOT
symmetric under `x ↦ W - 1 - x`: for `W = 10`, `b = 3`, column 0 has weight 0
while column `W - 1 - 0 = 9` has weight `min(9, 3, 1)/3 = 1/3`. -/
theorem claim_C2_counterexample :
    blendWeight 10 3 0 ≠ blendWeight 10 3 (10 - 1 - 0) := by
  unfold blendWeight
  push_cast
  norm_num

/-- C2 (amended): the blend weight is symmetric under `x ↦ W - x` (symmetry
about the canvas midpoint `W/2`, not about `(W-1)/2`): for every canvas width
`W`, blend width `b > 0` and column `x ≤ W`,
`blendWeight W b x = blendWeight W b (W - x)`. -/
theorem claim_C2_amended (W x : ℕ) (b : ℚ) (hb : 0 < b) (hx : x ≤ W) :
    blendWeight W b x = blendWeight W b (W - x) := by
  unfold blendWeight
  have hcast : ((W - x : ℕ) : ℚ) = (W : ℚ) - (x : ℚ) := by
    push_cast [Nat.cast_sub hx]
    ring
  rw [hcast]
  have hcast2 : (W : ℚ) - ((W : ℚ) - (x : ℚ)) = (x : ℚ) := by ring
  rw [hcast2]
  congr 1
  simp [min_comm, min_assoc, min_left_comm]

/-- C2 (witness): the amended symmetry at `W = 10`, `b = 3`, `x = 4`. -/
theorem claim_C2_witness :
    (0 < (3 : ℚ)) ∧ (4 ≤ 10) ∧ blendWeight 10 3 4 = blendWeight 10 3 (10 - 4) :=
  ⟨by norm_num, by norm_num, claim_C2_amended 10 4 3 (by norm_num) (by norm_num)⟩

/-- C3 (counterexample): `getAccSize` applied to the empty image list does NOT
signal an `EmptyInputError`: it returns normally with the sentinel-derived
geometry `accWidth = accHeight = -(sys.maxsize) = -(2^63 - 1)`, `channels =
width = -1` and a translation by `-sys.maxsize`. -/
theorem claim_C3_counterexample : getAccSize [] =
    ⟨-9223372036854775807, -9223372036854775807, -1, -1,
     ⟨1, 0, -9223372036854775807, 0, 1, -9223372036854775807, 0, 0, 1⟩⟩ :=
  getAccSize_nil_eval

/-- C3 (amended): composing an empty image sequence does not raise an
`EmptyInputError` in `getAccSize` (which returns a nonsense geometry, see the
counterexample); the failure only surfaces in `blendImages` when `np.zeros`
rejects the negative buffer dimensions with a generic `ValueError`, for every
blend width and in both 360 and non-360 mode. -/
theorem claim_C3_amended (b : ℚ) (m : Bool) :
    blendImages [] b m =
      .error ⟨"ValueError", "negative dimensions are not allowed"⟩ :=
  blendImages_nil b m

/-- C4 (counterexample): requesting 360 mode raises the generic Python
`Exception` class with message "TODO 12 in blend.py not implemented", not a
dedicated `UnsupportedModeError` type distinct from ordinary runtime failures:
at the concrete one-image input the raised error's class is `Exception`, the
same base class every ordinary failure shares. -/
theorem claim_C4_counterexample :
    blendImages [cInfo] 20 true =
      .error ⟨"Exception", "TODO 12 in blend.py not implemented"⟩ ∧
    (PyError.mk "Exception" "TODO 12 in blend.py not implemented").cls ≠
      "UnsupportedModeError" := by
  constructor
  · apply blendImages_is360_todo
    intro i hi
    have hi' : i = cInfo := by simpa using hi
    subst hi'
    rw [getAccSize_cInfo]
    show (id3.mul id3).det ≠ 0
    rw [id3_mul, det_id3]
    norm_num
  · decide

/-- C4 (amended): for every nonempty image list whose combined transforms
`translation . position` are all invertible, `blendImages` with `is360 = true`
raises the generic `Exception("TODO 12 in blend.py not implemented")` — after
compositing and drift-parameter computation, but before the final warp
produces an output image. -/
theorem claim_C4_amended (i₀ : ImageInfo) (rest : List ImageInfo) (b : ℚ)
    (hdet : ∀ i ∈ i₀ :: rest,
      ((getAccSize (i₀ :: rest)).translation.mul i.position).det ≠ 0) :
    blendImages (i₀ :: rest) b true =
      .error ⟨"Exception", "TODO 12 in blend.py not implemented"⟩ :=
  blendImages_is360_todo i₀ rest b hdet

/-- C4 (witness): the amended claim instantiated at the concrete one-image
list with blend width 5. -/
theorem claim_C4_witness :
    (∀ i ∈ [cInfo], ((getAccSize [cInfo]).translation.mul i.position).det ≠ 0) ∧
    blendImages [cInfo] 5 true =
      .error ⟨"Exception", "TODO 12 in blend.py not implemented"⟩ := by
  have hdet : ∀ i ∈ [cInfo],
      ((getAccSize [cInfo]).translation.mul i.position).det ≠ 0 := by
    intro i hi
    have hi' : i = cInfo := by simpa using hi
    subst hi'
    rw [getAccSize_cInfo]
    show (id3.mul id3).det ≠ 0
    rw [id3_mul, det_id3]
    norm_num
  exact ⟨hdet, claim_C4_amended cInfo [] 5 hdet⟩

/-- C5 (counterexample): the fold in `getAccSize` starts from `maxX = maxY = 0`
(and `minX = minY = sys.maxsize`), not from -infinity/+infinity, and the
per-image corner values are truncated toward zero, not rounded with ceil/floor.
First input: a 2x2 image translated by (-10, -10), whose transformed corners
are all negative, has the truncated bounding box `[-10, -9]` in x, so the
minimal enclosing width is `-9 - (-10) = 1`; the code instead returns canvas
width `max(0, -9) - (-10) = 10`.  Second input: a 2x2 image translated by 0.7
has true corner xs 0.7 and 1.7, so `ceil(maxX) - floor(minX) = 2 - 0 = 2`;
the code returns `int(1.7) - int(0.7) = 1`. -/
theorem claim_C5_counterexample :
    (getAccSize [negInfo]).accWidth = 10 ∧
    (imageBoundingBox negInfo.img negInfo.position).maxX -
      (imageBoundingBox negInfo.img negInfo.position).minX = 1 ∧
    ((10 : ℤ) ≠ 1) ∧
    (getAccSize [fracInfo]).accWidth = 1 ∧
    dehom (fracInfo.position.mulVec (((2 : ℚ) - 1), 0, 1)) = (17 / 10, 0) ∧
    ((⌈(17 : ℚ) / 10⌉ - ⌊(7 : ℚ) / 10⌋ : ℤ) = 2) := by
  refine ⟨getAccSize_negInfo_width, ?_, by norm_num, getAccSize_fracInfo_width, ?_, ?_⟩
  · rw [bbox_negInfo]
    norm_num
  · show dehom (Mat3.mulVec ⟨1, 0, 7 / 10, 0, 1, 0, 0, 0, 1⟩ (((2 : ℚ) - 1), 0, 1)) =
      (17 / 10, 0)
    rw [mulVec_translate, dehom_one]
    norm_num
  · have h1 : ⌈(17 : ℚ) / 10⌉ = 2 := by
      rw [Int.ceil_eq_iff]
      constructor <;> norm_num
    have h2 : ⌊(7 : ℚ) / 10⌋ = 0 := by
      rw [Int.floor_eq_iff]
      constructor <;> norm_num
    rw [h1, h2]
    norm_num

/-- C5 (amended): for every nonempty image list, `getAccSize` folds the
truncated per-image bounding boxes starting from the sentinels
`minX = minY = sys.maxsize` and `maxX = maxY = 0`; whenever the fold of the
per-image maxima is nonnegative and the fold of the per-image minima is at
most `sys.maxsize` (in each axis), the canvas equals the minimal enclosing box
of the truncated per-image bounding boxes: width `maxX - minX` and height
`maxY - minY`. -/
theorem claim_C5_amended (i₀ : ImageInfo) (rest : List ImageInfo)
    (hMx : 0 ≤ rest.foldl (fun a i => max a (imageBoundingBox i.img i.position).maxX)
      (imageBoundingBox i₀.img i₀.position).maxX)
    (hmx : rest.foldl (fun a i => min a (imageBoundingBox i.img i.position).minX)
      (imageBoundingBox i₀.img i₀.position).minX ≤ maxsize)
    (hMy : 0 ≤ rest.foldl (fun a i => max a (imageBoundingBox i.img i.position).maxY)
      (imageBoundingBox i₀.img i₀.position).maxY)
    (hmy : rest.foldl (fun a i => min a (imageBoundingBox i.img i.position).minY)
      (imageBoundingBox i₀.img i₀.position).minY ≤ maxsize) :
    (getAccSize (i₀ :: rest)).accWidth =
      rest.foldl (fun a i => max a (imageBoundingBox i.img i.position).maxX)
        (imageBoundingBox i₀.img i₀.position).maxX
      - rest.foldl (fun a i => min a (imageBoundingBox i.img i.position).minX)
        (imageBoundingBox i₀.img i₀.position).minX ∧
    (getAccSize (i₀ :: rest)).accHeight =
      rest.foldl (fun a i => max a (imageBoundingBox i.img i.position).maxY)
        (imageBoundingBox i₀.img i₀.position).maxY
      - rest.foldl (fun a i => min a (imageBoundingBox i.img i.position).minY)
        (imageBoundingBox i₀.img i₀.position).minY := by
  constructor
  · rw [getAccSize_width_cons, max_eq_right hMx, min_eq_right hmx]
  · rw [getAccSize_height_cons, max_eq_right hMy, min_eq_right hmy]

/-- C5 (witness): the amended claim instantiated at the single 100x100 image
placed with the identity transform, whose bounding box is `[0,99] x [0,99]`. -/
theorem claim_C5_witness :
    (0 ≤ ([] : List ImageInfo).foldl
      (fun a i => max a (imageBoundingBox i.img i.position).maxX)
      (imageBoundingBox infoA.img infoA.position).maxX) ∧
    (getAccSize [infoA]).accWidth =
      ([] : List ImageInfo).foldl
        (fun a i => max a (imageBoundingBox i.img i.position).maxX)
        (imageBoundingBox infoA.img infoA.position).maxX
      - ([] : List ImageInfo).foldl
        (fun a i => min a (imageBoundingBox i.img i.position).minX)
        (imageBoundingBox infoA.img infoA.position).minX := by
  have hbbA : imageBoundingBox infoA.img infoA.position = ⟨0, 0, 99, 99⟩ := by
    show imageBoundingBox imgA id3 = ⟨0, 0, 99, 99⟩
    exact bbox_imgA_id
  constructor
  · simp only [List.foldl_nil]
    rw [hbbA]
    norm_num
  · exact (claim_C5_amended infoA []
      (by simp only [List.foldl_nil]; rw [hbbA]; norm_num)
      (by simp only [List.foldl_nil]; rw [hbbA]; norm_num [maxsize])
      (by simp only [List.foldl_nil]; rw [hbbA]; norm_num)
      (by simp only [List.foldl_nil]; rw [hbbA]; norm_num [maxsize])).1

/-- C6 (counterexample): for the two-image example scenario (two 100x100
3-channel images, B translated 50 pixels right of A), `getAccSize` does NOT
return canvas width 150 and height 100. -/
theorem claim_C6_counterexample :
    ¬ ((getAccSize [infoA, infoB]).accWidth = 150 ∧
       (getAccSize [infoA, infoB]).accHeight = 100) := by
  intro h
  have h1 := getAccSize_AB_dims.1
  rw [h.1] at h1
  omega

/-- C6 (amended): for the two-image example scenario, `getAccSize` returns
canvas width 149 and height 99: the bounding boxes are built from the corners
at `W - 1 = 99` and `H - 1 = 99`, so image A contributes `[0, 99]` and the
translated image B contributes `[50, 149]` in x. -/
theorem claim_C6_amended :
    (getAccSize [infoA, infoB]).accWidth = 149 ∧
    (getAccSize [infoA, infoB]).accHeight = 99 :=
  getAccSize_AB_dims

/-- C7 (confirmed): whenever inverse-mapped source coordinates pass the line-82
skip test of `accumulateBlend` (that is, `0 ≤ sx < imgW - 1` and
`0 ≤ sy < imgH - 1`), all four lattice indices used by
`bilinear_interpolation` — `(int(sx), int(sy))` and their `+1` neighbours —
are within the image bounds `[0, imgW) x [0, imgH)`, so the out-of-bounds
branch is unreachable under the guard. -/
theorem claim_C7_bilinear_inbounds (imgH imgW : ℕ) (sx sy : ℚ)
    (h : ¬ skipTest imgH imgW sx sy) :
    0 ≤ truncQ sx ∧ truncQ sx + 1 < (imgW : ℤ) ∧
    0 ≤ truncQ sy ∧ truncQ sy + 1 < (imgH : ℤ) := by
  unfold skipTest at h
  push_neg at h
  obtain ⟨h1, h2, h3, h4⟩ := h
  have hx0 : 0 ≤ truncQ sx := truncQ_nonneg h1
  have hy0 : 0 ≤ truncQ sy := truncQ_nonneg h3
  have hx1 : (truncQ sx : ℚ) < (imgW : ℚ) - 1 := lt_of_le_of_lt (truncQ_le h1) h2
  have hy1 : (truncQ sy : ℚ) < (imgH : ℚ) - 1 := lt_of_le_of_lt (truncQ_le h3) h4
  have hx2 : truncQ sx < (imgW : ℤ) - 1 := by exact_mod_cast (by push_cast; linarith : ((truncQ sx : ℤ) : ℚ) < (((imgW : ℤ) - 1 : ℤ) : ℚ))
  have hy2 : truncQ sy < (imgH : ℤ) - 1 := by exact_mod_cast (by push_cast; linarith : ((truncQ sy : ℤ) : ℚ) < (((imgH : ℤ) - 1 : ℤ) : ℚ))
  omega

/-- C7 (witness): the in-bounds guarantee at `imgW = imgH = 2`,
`sx = sy = 1/2`: the skip test passes and all four bilinear indices are in
bounds. -/
theorem claim_C7_witness :
    (¬ skipTest 2 2 (1 / 2) (1 / 2)) ∧
    (0 ≤ truncQ (1 / 2) ∧ truncQ (1 / 2) + 1 < ((2 : ℕ) : ℤ) ∧
     0 ≤ truncQ (1 / 2) ∧ truncQ (1 / 2) + 1 < ((2 : ℕ) : ℤ)) := by
  have hns : ¬ skipTest 2 2 (1 / 2) (1 / 2) := by
    unfold skipTest
    push_neg
    norm_num
  exact ⟨hns, claim_C7_bilinear_inbounds 2 2 (1 / 2) (1 / 2) hns⟩

/-- C8 (counterexample): `getDriftParams` does NOT return the canvas
coordinates of the midpoint of the first image's left edge: for two 100x100
images (B translated 50 right of A) with the identity translation, it returns
`(x_init, y_init) = (50, 0)` — the midpoint of the TOP edge of image A mapped
to the canvas — while the left-edge midpoint of image A maps to `(0, 50)`. -/
theorem claim_C8_counterexample :
    getDriftParams [infoA, infoB] id3 100 = .ok (50, 0, 100, 0) ∧
    specLeftEdgeMidpointCanvas id3 id3 100 = (0, 50) ∧
    ((50 : ℚ), (0 : ℚ)) ≠ ((0 : ℚ), (50 : ℚ)) := by
  refine ⟨getDriftParams_AB_eval, specLeftEdge_AB_eval, ?_⟩
  intro h
  have := congrArg Prod.fst h
  norm_num at this

/-- C8 (amended): for every nonempty image list, `getDriftParams` returns as
`(x_init, y_init)` the dehomogenised image of the point `(width/2, 0)` — the
midpoint of the first image's TOP edge — under `translation . position` of the
first image, and as `(x_final, y_final)` the image of the same top-edge
midpoint under `translation . position` of the last image. -/
theorem claim_C8_amended (i₀ : ImageInfo) (rest : List ImageInfo)
    (T : Mat3) (w : ℚ) :
    getDriftParams (i₀ :: rest) T w =
      .ok ((dehom ((T.mul i₀.position).mulVec (1 / 2 * w, 0, 1))).1,
           (dehom ((T.mul i₀.position).mulVec (1 / 2 * w, 0, 1))).2,
           (dehom ((T.mul (rest.getLastD i₀).position).mulVec (1 / 2 * w, 0, 1))).1,
           (dehom ((T.mul (rest.getLastD i₀).position).mulVec (1 / 2 * w, 0, 1))).2) :=
  getDriftParams_first_last i₀ rest T w

/-- C9 (confirmed): for every accumulation-buffer pixel never touched by any
image (all four channels still the initial 0), `normalizeBlend` outputs 0
(black) in the three colour channels and 255 (fully opaque, `1.0` rescaled to
8 bits) in the weight channel; the division is by `max(0, 1e-8) = 1e-8`, a
nonzero denominator, so division by zero is avoided by the epsilon clamp. -/
theorem claim_C9_untouched_pixels (acc : AccBuf) (y x : ℕ)
    (h : ∀ ch, ch ≤ 3 → acc y x ch = 0) :
    (∀ ch, ch < 3 → normalizeBlend acc y x ch = 0) ∧
    normalizeBlend acc y x 3 = 255 ∧
    max (acc y x 3) (1 / 100000000 : ℚ) = 1 / 100000000 ∧
    ((1 / 100000000 : ℚ) ≠ 0) := by
  refine ⟨?_, normalizeBlend_alpha_255 acc y x, ?_, by norm_num⟩
  · intro ch hch
    exact normalizeBlend_zero_cell acc y x ch hch (h ch (by omega)) (h 3 (le_refl 3))
  · rw [h 3 (le_refl 3)]
    exact max_eq_right (by norm_num)

/-- C9 (witness): the untouched-pixel behaviour at the all-zero buffer. -/
theorem claim_C9_witness :
    (∀ ch, ch ≤ 3 → zeroAcc 0 0 ch = 0) ∧
    ((∀ ch, ch < 3 → normalizeBlend zeroAcc 0 0 ch = 0) ∧
     normalizeBlend zeroAcc 0 0 3 = 255 ∧
     max (zeroAcc 0 0 3) (1 / 100000000 : ℚ) = 1 / 100000000 ∧
     ((1 / 100000000 : ℚ) ≠ 0)) :=
  ⟨fun _ _ => rfl, claim_C9_untouched_pixels zeroAcc 0 0 (fun _ _ => rfl)⟩

/-- C10 (confirmed): `accumulateBlend` is pointwise non-decreasing on the
accumulation buffer: image samples are nonnegative 8-bit values divided by
255, the bilinear weights are nonnegative under the skip guard, and the blend
weight `min(x, b, W - x)/b` is nonnegative for `0 < b` and `x < W`, so for
every blend width `b > 0`, every buffer cell only grows (or stays equal) when
the call succeeds. -/
theorem claim_C10_monotone (img : Image) (acc : AccBuf) (accH accW : ℕ)
    (M : Mat3) (b : ℚ) (hb : 0 < b) (acc' : AccBuf)
    (h : accumulateBlend img acc accH accW M b = .ok acc') :
    ∀ y x ch, acc y x ch ≤ acc' y x ch := by
  unfold accumulateBlend at h
  by_cases hdet : M.det = 0
  · rw [if_pos hdet] at h
    exact absurd h (by simp)
  · rw [if_neg hdet] at h
    have hacc : accumLoop img M.inv accW b accH acc = acc' := by
      exact Except.ok.inj h
    intro y x ch
    rw [← hacc, accumLoop_apply]
    by_cases hcond : y < accH ∧ x < accW
    · rw [if_pos hcond]
      exact le_add_of_nonneg_right
        (contribution_nonneg img M.inv accW b x y ch hb hcond.2)
    · rw [if_neg hcond]
      simp

/-- C10 (witness): monotonicity instantiated at the concrete 2x2 image
accumulated into the 1x1 zero buffer with blend width 20. -/
theorem claim_C10_witness :
    (0 < (20 : ℚ)) ∧
    accumulateBlend cImg zeroAcc 1 1 id3 20 = .ok cAccRes ∧
    (∀ y x ch, zeroAcc y x ch ≤ cAccRes y x ch) := by
  have hok : accumulateBlend cImg zeroAcc 1 1 id3 20 = .ok cAccRes := by
    unfold cAccRes
    exact accumulateBlend_ok cImg zeroAcc 1 1 id3 20 (by rw [det_id3]; norm_num)
  exact ⟨by norm_num, hok, claim_C10_monotone cImg zeroAcc 1 1 id3 20
    (by norm_num) cAccRes hok⟩
